import Mathlib

/-!
Verification of the `intelhex` crate (src/lib/intelhex: error.rs, util.rs,
file.rs).  The Rust code is shallowly embedded: lines of text are lists of
characters, machine integers are `Nat` with explicit masking where the Rust
types (`u8`, `u16`, `u64`, `usize`) make overflow or wrapping observable, and
fallible operations return `Except`/`Option`.  A Rust panic (out-of-bounds
string slice, arithmetic underflow of `usize` subtraction in a debug build)
is modelled by an outer `Option` returning `none`.
-/

namespace IntelHex

/-! ## error.rs -/

/-- The error-kind enumeration `IHexError` from error.rs (spelled exactly as
in the source, including `RecordBadEndcoding`). -/
inductive IHexError where
  | RecordInvalidStart
  | RecordInvalidType
  | RecordInvalidLength
  | RecordBadChecksum
  | RecordBadEndcoding
  | FileBadRecord
  | FileErrorLoad
  | FileErrorOpen
  | FileErrorWrite
deriving DecidableEq, Repr

/-- Errors of the external `hex` crate's `decode` (the possible
`hex::FromHexError` values that can arise from decoding a `&str` slice). -/
inductive HexError where
  | invalidHexCharacter (c : Char) (index : Nat)
  | oddLength
deriving DecidableEq, Repr

/-- The chained error structure `IntelHexError` from error.rs: a message, an
error kind, and an optional boxed source, which in this crate is either a
`hex::FromHexError` or another `IntelHexError`. -/
inductive IntelHexError where
  | mk (msg : String) (err_type : IHexError) (source : Option (HexError ⊕ IntelHexError))

def IntelHexError.msg : IntelHexError → String
  | .mk m _ _ => m

def IntelHexError.err_type : IntelHexError → IHexError
  | .mk _ t _ => t

def IntelHexError.source : IntelHexError → Option (HexError ⊕ IntelHexError)
  | .mk _ _ s => s

/-- Constructor `IHexError::new` from error.rs: build an `IntelHexError` with no source. -/
def IHexError.new (e : IHexError) (msg : String) : IntelHexError :=
  .mk msg e none

/-- Method `IntelHexError::set_source` from error.rs. -/
def IntelHexError.set_source (e : IntelHexError) (s : HexError ⊕ IntelHexError) :
    IntelHexError :=
  match e with
  | .mk m t _ => .mk m t (some s)

/-! ## The external `hex` crate: `decode` and uppercase `encode_hex` -/

/-- Value of one hexadecimal digit character, if any (both cases accepted). -/
def hexVal? (c : Char) : Option Nat :=
  if '0' ≤ c ∧ c ≤ '9' then some (c.toNat - '0'.toNat)
  else if 'a' ≤ c ∧ c ≤ 'f' then some (c.toNat - 'a'.toNat + 10)
  else if 'A' ≤ c ∧ c ≤ 'F' then some (c.toNat - 'A'.toNat + 10)
  else none

/-- Decoding loop of `hex::decode`: consume two digits per output byte,
reporting the first invalid character together with its index. -/
def decodeLoop : List Char → Nat → Except HexError (List Nat)
  | [], _ => .ok []
  | [c], i =>
    match hexVal? c with
    | none => .error (.invalidHexCharacter c i)
    | some _ => .error .oddLength
  | c1 :: c2 :: rest, i =>
    match hexVal? c1 with
    | none => .error (.invalidHexCharacter c1 i)
    | some h =>
      match hexVal? c2 with
      | none => .error (.invalidHexCharacter c2 (i + 1))
      | some l => (decodeLoop rest (i + 2)).map (fun t => (h * 16 + l) :: t)

/-- Model of `hex::decode` on a string slice: odd-length input is rejected, otherwise
each pair of hex digits becomes one byte. -/
def hexDecode (s : List Char) : Except HexError (List Nat) :=
  if s.length % 2 = 1 then .error .oddLength else decodeLoop s 0

/-- Uppercase hexadecimal digit for a value below 16 (the net effect of the
crate's lowercase `encode_hex` followed by `to_ascii_uppercase`). -/
def hexDigitUpper (n : Nat) : Char :=
  if n < 10 then Char.ofNat (48 + n) else Char.ofNat (55 + n)

/-- The two uppercase hex characters of one byte. -/
def byteHexUpper (b : Nat) : List Char :=
  [hexDigitUpper (b / 16 % 16), hexDigitUpper (b % 16)]

/-- Model of `encode_hex` followed by `to_ascii_uppercase` over a byte sequence. -/
def hexEncodeUpper (bs : List Nat) : List Char :=
  (bs.map byteHexUpper).flatten

/-! ## util.rs -/

/-- Function `twos_comp` from util.rs: `(input as i64 * -1) as u8` on a `u64` input,
i.e. the low 8 bits of the 64-bit two's complement negation. -/
def twos_comp (input : Nat) : Nat :=
  (2 ^ 64 - input % 2 ^ 64) % 256

/-! ## file.rs: record types and records -/

/-- Constant `RECORD_START` from file.rs. -/
def RECORD_START : Char := ':'

/-- The `RecordType` enumeration from file.rs. -/
inductive RecordType where
  | Data
  | EndOfFile
  | ExtendedSegmentAddress
  | ExtendedLinearAddress
  | StartLinearAddress
deriving DecidableEq, Repr

/-- Function `RecordType::parse` from file.rs: match on the two-character type-code
string, rejecting everything outside the closed enumeration. -/
def RecordType.parse (s : List Char) : Except IntelHexError RecordType :=
  if s = "00".toList then .ok .Data
  else if s = "01".toList then .ok .EndOfFile
  else if s = "02".toList then .ok .ExtendedSegmentAddress
  else if s = "04".toList then .ok .ExtendedLinearAddress
  else if s = "05".toList then .ok .StartLinearAddress
  else .error (IHexError.RecordInvalidType.new ("Invalid record type: " ++ String.mk s))

/-- Function `RecordType::to_u8` from file.rs. -/
def RecordType.to_u8 : RecordType → Nat
  | .Data => 0
  | .EndOfFile => 1
  | .ExtendedSegmentAddress => 2
  | .ExtendedLinearAddress => 4
  | .StartLinearAddress => 5

/-- The `Record` structure from file.rs.  Field types in the source are
`u8` / `u16` / `Bytes` / `u8`; here they are `Nat`s (and a list of `Nat`s),
masked at the points where the Rust code converts or stores them. -/
structure Record where
  len : Nat
  addr : Nat
  rtype : RecordType
  data : List Nat
  checksum : Nat
deriving DecidableEq, Repr

/-- Function `Record::to_bytes` from file.rs:
`[len][addr_hi][addr_lo][type][payload...][checksum]`, with the `u8`/`u16`
typing of the fields made explicit by masking. -/
def Record.to_bytes (r : Record) : List Nat :=
  [r.len % 256] ++ [r.addr % 65536 / 256, r.addr % 256] ++ [r.rtype.to_u8]
    ++ r.data.map (· % 256) ++ [r.checksum % 256]

/-- Function `Record::binary_size` from file.rs: `self.data.len() + 7`. -/
def Record.binary_size (r : Record) : Nat :=
  r.data.length + 7

/-- Function `Record::calculate_checksum` from file.rs: sum every serialized byte but
the last as `u64` (wrapping), reduce mod 256, and apply `twos_comp`. -/
def Record.calculate_checksum (r : Record) : Nat :=
  let byts := r.to_bytes
  twos_comp (byts.dropLast.sum % 2 ^ 64 % 256)

/-- Function `Record::to_hex_str` from file.rs: uppercase hex encoding of `to_bytes`
with the start marker inserted at position 0. -/
def Record.to_hex_str (r : Record) : List Char :=
  RECORD_START :: hexEncodeUpper r.to_bytes

/-- Rust string slicing `s[a..b]`, which panics (modelled as `none`) when the
range is out of bounds. -/
def strSlice? (s : List Char) (a b : Nat) : Option (List Char) :=
  if a ≤ b ∧ b ≤ s.length then some ((s.drop a).take (b - a)) else none

/-- Rust string slicing `s[a..b]` at a range already known to be in bounds. -/
def strSlice (s : List Char) (a b : Nat) : List Char :=
  (s.drop a).take (b - a)

/-- The field-decoding phase of `Record::parse` (file.rs lines 67-122) on
`record_str`, the portion of the line after the start marker: decode the
fixed-width fields left to right and build the `Record` struct literal.  The
outer `Option` is `none` exactly when the Rust code would panic: the slice
`record_str[0..2]` taken before the length check, and the vector indexings
`byts[0]`, `byts[1]` on the decoded address. -/
def Record.decodeBody (record_str : List Char) :
    Option (Except IntelHexError (Option Record)) :=
  match strSlice? record_str 0 2 with
    | none => none
    | some lenSlice =>
      match hexDecode lenSlice with
      | .error err =>
        some (.error ((IHexError.RecordBadEndcoding.new
          "Error while decoding record length").set_source (.inl err)))
      | .ok lenBytes =>
        let len := lenBytes.sum % 256
        let data_end := 8 + len * 2
        let record_end := 2 + data_end
        if ¬ (record_end ≤ record_str.length) then
          some (.error (IHexError.RecordInvalidLength.new
            ("Record length: " ++ toString record_str.length
              ++ ", expected: " ++ toString record_end)))
        else
          match hexDecode (strSlice record_str 2 6) with
          | .error err =>
            some (.error ((IHexError.RecordBadEndcoding.new
              "Error while decoding address").set_source (.inl err)))
          | .ok addrBytes =>
            match addrBytes[0]?, addrBytes[1]? with
            | some b0, some b1 =>
              match RecordType.parse (strSlice record_str 6 8) with
              | .error e => some (.error e)
              | .ok rtype =>
                match hexDecode (strSlice record_str 8 data_end) with
                | .error err =>
                  some (.error ((IHexError.RecordBadEndcoding.new
                    "Error while decoding address").set_source (.inl err)))
                | .ok dataBytes =>
                  match hexDecode (strSlice record_str data_end record_end) with
                  | .error err =>
                    some (.error ((IHexError.RecordBadEndcoding.new
                      "Error while decoding checksum").set_source (.inl err)))
                  | .ok csBytes =>
                    some (.ok (some
                      { len := len
                        addr := b0 * 256 + b1
                        rtype := rtype
                        data := dataBytes
                        checksum := csBytes.sum % 256 }))
            | _, _ => none

/-- The decoding phase of `Record::parse` (file.rs lines 61-122): locate the
first start marker (`line.find`), returning "no record" when there is none,
and run the field decoder on everything after it. -/
def Record.decode (line : List Char) : Option (Except IntelHexError (Option Record)) :=
  match line.findIdx? (fun b => b == RECORD_START) with
  | none => some (.ok none)
  | some start => Record.decodeBody (line.drop (start + 1))

/-- Uppercase hexadecimal formatting of a `Nat`, as Rust's X format specifier
produces it: no leading zeros, and `0` printed as `0`. -/
def hexX (n : Nat) : String :=
  String.mk ((Nat.toDigits 16 n).map Char.toUpper)

/-- Function `Record::parse` from file.rs: the decoding phase followed by the
checksum validation (lines 124-131). -/
def Record.parse (line : List Char) : Option (Except IntelHexError (Option Record)) :=
  match Record.decode line with
  | some (.ok (some record)) =>
    let checksum := record.calculate_checksum
    if checksum = record.checksum then some (.ok (some record))
    else
      some (.error (IHexError.RecordBadChecksum.new
        ("Bad checksum: 0x" ++ hexX record.checksum ++ ", calculated: 0x"
          ++ hexX checksum ++ " (" ++ toString checksum ++ ")")))
  | other => other

/-! ## file.rs: the file structure -/

/-- The `IntelHexFile` structure from file.rs (`size` is a `usize`). -/
structure IntelHexFile where
  path : Option String
  size : Nat
  records : List Record

/-- Splitting a character list at every newline character, as Rust's
`str::split('\n')`: always at least one (possibly empty) part. -/
def splitNL : List Char → List (List Char)
  | [] => [[]]
  | c :: rest =>
    if c = '\n' then [] :: splitNL rest
    else
      match splitNL rest with
      | [] => [[c]]
      | l :: ls => (c :: l) :: ls

/-- Strip one trailing carriage return, as `str::lines` does on every line
that was terminated by a newline. -/
def chompCR (l : List Char) : List Char :=
  if l.getLast? = some '\r' then l.dropLast else l

/-- Reassemble the parts produced by `splitNL` the way `str::lines` reports
them: every part but the last was newline-terminated and loses a trailing
`'\r'`; a final empty part (input ended in `'\n'`) yields no line. -/
def linesAssemble : List (List Char) → List (List Char)
  | [] => []
  | [last] => if last = [] then [] else [last]
  | p :: rest => chompCR p :: linesAssemble rest

/-- Rust's `str::lines` over a character list. -/
def rustLines (s : List Char) : List (List Char) :=
  if s = [] then [] else linesAssemble (splitNL s)

/-- The loop body of `IntelHexFile::parse_records` (file.rs lines 184-196),
carrying the 0-based `enumerate` index: parse each line, fail fast wrapping
the cause with the 1-based line number, skip lines yielding no record, and
keep parsed records in order. -/
def parse_records_loop : List (List Char) → Nat →
    Option (Except IntelHexError (List Record))
  | [], _ => some (.ok [])
  | line :: rest, i =>
    match Record.parse line with
    | none => none
    | some (.error err) =>
      some (.error ((IHexError.FileBadRecord.new
        ("Error while parsing record on line " ++ toString (i + 1))).set_source
          (.inr err)))
    | some (.ok none) => parse_records_loop rest (i + 1)
    | some (.ok (some r)) => (parse_records_loop rest (i + 1)).map (Except.map (r :: ·))

/-- Function `IntelHexFile::parse_records` from file.rs. -/
def IntelHexFile.parse_records (raw_data : List Char) :
    Option (Except IntelHexError (List Record)) :=
  parse_records_loop (rustLines raw_data) 0

/-- The UTF-8 byte length of a character list (`raw_data.bytes().len()`). -/
def strBytesLen (s : List Char) : Nat :=
  (s.map Char.utf8Size).sum

/-- Function `IntelHexFile::load` from file.rs: parse the records, wrapping any
failure in a `FileErrorLoad`; on success record the input's byte length. -/
def IntelHexFile.load (raw_data : List Char) :
    Option (Except IntelHexError IntelHexFile) :=
  match IntelHexFile.parse_records raw_data with
  | none => none
  | some (.error err) =>
    some (.error ((IHexError.FileErrorLoad.new "Error loading data").set_source
      (.inr err)))
  | some (.ok records) =>
    some (.ok { path := none, size := strBytesLen raw_data, records := records })

/-- Subtraction on `usize`, which panics (here `none`) on underflow in a debug
build. -/
def checkedSub (a b : Nat) : Option Nat :=
  if b ≤ a then some (a - b) else none

/-- The accumulation loop of `IntelHexFile::to_hex_str` (file.rs lines
250-255): append each record's hex line, and a newline after every index
other than `last_i`. -/
def hexLinesLoop : List Record → Nat → Nat → List Char
  | [], _, _ => []
  | r :: rest, i, last_i =>
    r.to_hex_str ++ (if i ≠ last_i then ['\n'] else []) ++ hexLinesLoop rest (i + 1) last_i

/-- Function `IntelHexFile::to_hex_str` from file.rs: computes `last_i =
records.len() - 1` on `usize` (an underflow, hence `none`, when `records` is
empty) and joins the record lines. -/
def IntelHexFile.to_hex_str (f : IntelHexFile) : Option (List Char) :=
  match checkedSub f.records.length 1 with
  | none => none
  | some last_i => some (hexLinesLoop f.records 0 last_i)

/-- Function `IntelHexFile::binary_size` from file.rs. -/
def IntelHexFile.binary_size (f : IntelHexFile) : Nat :=
  (f.records.map Record.binary_size).sum

/-- Function `IntelHexFile::to_bytes` from file.rs. -/
def IntelHexFile.to_bytes (f : IntelHexFile) : List Nat :=
  (f.records.map Record.to_bytes).flatten

/-- Well-formedness of a `Record` value: each field fits its Rust machine
type (`len`, `checksum` in `u8`, `addr` in `u16`, payload bytes in `u8`) and
the payload length equals the `len` field, as the data model requires of
every record built by parsing. -/
def Record.WF (r : Record) : Prop :=
  r.len < 256 ∧ r.addr < 65536 ∧ (∀ b ∈ r.data, b < 256) ∧ r.checksum < 256 ∧
    r.data.length = r.len

instance (r : Record) : Decidable r.WF := by
  unfold Record.WF
  infer_instance

/-! ## Serialization lemmas -/

theorem to_bytes_eq (r : Record) :
    r.to_bytes = ([r.len % 256, r.addr % 65536 / 256, r.addr % 256, r.rtype.to_u8]
      ++ r.data.map (· % 256)) ++ [r.checksum % 256] := by
  simp [Record.to_bytes]

theorem to_bytes_dropLast (r : Record) :
    r.to_bytes.dropLast = [r.len % 256, r.addr % 65536 / 256, r.addr % 256, r.rtype.to_u8]
      ++ r.data.map (· % 256) := by
  rw [to_bytes_eq, List.dropLast_concat]

theorem to_bytes_length (r : Record) : r.to_bytes.length = r.data.length + 5 := by
  simp [Record.to_bytes]

theorem twos_comp_eq (x : Nat) (h : x < 256) : twos_comp x = (256 - x) % 256 := by
  unfold twos_comp
  have h64 : (2 : ℕ) ^ 64 = 18446744073709551616 := by norm_num
  rw [h64]
  omega

/-! ## Claim theorems: record sizes, checksum formula, simple evaluations -/

/-- C2: the claim asserts `binary_size()` equals the length of `to_bytes()`,
namely payload length + 5.  The code returns payload length + 7 while the
serialized form really is payload length + 5, so the two disagree on every
record: the `+ 7` in the source is the bug the spec's open question flags. -/
theorem binary_size_vs_serialized_length (r : Record) :
    r.binary_size = r.data.length + 7 ∧ r.to_bytes.length = r.data.length + 5 :=
  ⟨rfl, to_bytes_length r⟩

/-- C3: loading the empty input succeeds with zero records and `size = 0`,
but `to_hex_str` on that document computes `records.len() - 1 = 0 - 1` on
`usize`, an arithmetic underflow (modelled as `none`), instead of returning
the empty string. -/
theorem load_empty_then_serialize_underflows :
    IntelHexFile.load [] = some (.ok ⟨none, 0, []⟩) ∧
    IntelHexFile.to_hex_str ⟨none, 0, []⟩ = none :=
  ⟨rfl, rfl⟩

/-- C4: a line whose start marker is followed by fewer than two characters
makes `parse` slice `record_str[0..2]` out of bounds — a panic (`none`),
not an `InvalidLength` error; with at least two characters but a line
shorter than the declared fields require, `parse` does return the
`InvalidLength` error naming actual vs. required length. -/
theorem parse_short_line_behaviour :
    Record.parse [':'] = none ∧
    Record.parse [':', '0'] = none ∧
    Record.parse ":00".toList =
      some (.error (IHexError.RecordInvalidLength.new "Record length: 2, expected: 10")) ∧
    Record.parse ":0000".toList =
      some (.error (IHexError.RecordInvalidLength.new "Record length: 4, expected: 10")) :=
  ⟨rfl, rfl, rfl, rfl⟩

/-- C5: `calculate_checksum` returns `(256 - S % 256) % 256` where `S` is
the sum of every serialized byte except the final checksum byte, i.e. the
length byte, the two big-endian address bytes, the type byte and the payload
bytes. -/
theorem calculate_checksum_spec (r : Record) :
    r.calculate_checksum = (256 - r.to_bytes.dropLast.sum % 256) % 256 ∧
    r.to_bytes.dropLast = [r.len % 256, r.addr % 65536 / 256, r.addr % 256, r.rtype.to_u8]
      ++ r.data.map (· % 256) := by
  refine ⟨?_, to_bytes_dropLast r⟩
  show twos_comp (r.to_bytes.dropLast.sum % 2 ^ 64 % 256) = _
  rw [Nat.mod_mod_of_dvd _ (by norm_num : (256 : ℕ) ∣ 2 ^ 64)]
  exact twos_comp_eq _ (Nat.mod_lt _ (by norm_num))

/-! ## Parse structure lemmas -/

theorem parse_of_decode_ok {line : List Char} {r : Record}
    (h : Record.decode line = some (.ok (some r)))
    (hcs : r.calculate_checksum = r.checksum) :
    Record.parse line = some (.ok (some r)) := by
  unfold Record.parse
  rw [h]
  dsimp only
  rw [if_pos hcs]

theorem parse_of_decode_mismatch {line : List Char} {r : Record}
    (h : Record.decode line = some (.ok (some r)))
    (hcs : r.calculate_checksum ≠ r.checksum) :
    Record.parse line = some (.error (IHexError.RecordBadChecksum.new
      ("Bad checksum: 0x" ++ hexX r.checksum ++ ", calculated: 0x"
        ++ hexX r.calculate_checksum ++ " (" ++ toString r.calculate_checksum ++ ")"))) := by
  unfold Record.parse
  rw [h]
  dsimp only
  rw [if_neg hcs]

theorem decode_of_parse_ok {line : List Char} {r : Record}
    (h : Record.parse line = some (.ok (some r))) :
    Record.decode line = some (.ok (some r)) ∧ r.calculate_checksum = r.checksum := by
  unfold Record.parse at h
  cases hd : Record.decode line with
  | none => rw [hd] at h; exact absurd h (by simp)
  | some ex =>
    cases ex with
    | error e => rw [hd] at h; dsimp only at h; exact absurd h (by simp)
    | ok o =>
      cases o with
      | none => rw [hd] at h; dsimp only at h; exact absurd h (by simp)
      | some rec =>
        rw [hd] at h; dsimp only at h
        by_cases hc : rec.calculate_checksum = rec.checksum
        · rw [if_pos hc] at h
          simp only [Option.some.injEq, Except.ok.injEq] at h
          subst h
          exact ⟨rfl, hc⟩
        · rw [if_neg hc] at h
          exact absurd h (by simp)

theorem parse_of_decode_other {line : List Char}
    {v : Option (Except IntelHexError (Option Record))}
    (h : Record.decode line = v)
    (hv : ∀ r : Record, v ≠ some (.ok (some r))) :
    Record.parse line = v := by
  unfold Record.parse
  rw [h]
  match v with
  | none => rfl
  | some (.error e) => rfl
  | some (.ok none) => rfl
  | some (.ok (some r)) => exact absurd rfl (hv r)

/-! ## Claim theorems: type codes and checksum validation -/

/-- C7: the type-code parser maps exactly the five codes `00`, `01`, `02`,
`04`, `05` to the five record kinds (whose numeric codes `to_u8` returns),
every other type-code string yields a `RecordInvalidType` error, and a full
record line carrying the unrecognized code `03` fails with that error. -/
theorem record_type_closed_enumeration :
    RecordType.parse "00".toList = .ok .Data ∧
    RecordType.parse "01".toList = .ok .EndOfFile ∧
    RecordType.parse "02".toList = .ok .ExtendedSegmentAddress ∧
    RecordType.parse "04".toList = .ok .ExtendedLinearAddress ∧
    RecordType.parse "05".toList = .ok .StartLinearAddress ∧
    RecordType.Data.to_u8 = 0 ∧ RecordType.EndOfFile.to_u8 = 1 ∧
    RecordType.ExtendedSegmentAddress.to_u8 = 2 ∧
    RecordType.ExtendedLinearAddress.to_u8 = 4 ∧
    RecordType.StartLinearAddress.to_u8 = 5 ∧
    Record.parse ":0000000300".toList =
      some (.error (IHexError.RecordInvalidType.new "Invalid record type: 03")) ∧
    ∀ s : List Char, s ≠ "00".toList → s ≠ "01".toList → s ≠ "02".toList →
      s ≠ "04".toList → s ≠ "05".toList →
      RecordType.parse s =
        .error (IHexError.RecordInvalidType.new ("Invalid record type: " ++ String.mk s)) := by
  refine ⟨rfl, rfl, rfl, rfl, rfl, rfl, rfl, rfl, rfl, rfl, rfl, ?_⟩
  intro s h0 h1 h2 h4 h5
  unfold RecordType.parse
  rw [if_neg h0, if_neg h1, if_neg h2, if_neg h4, if_neg h5]

/-- C7 witness: the unrecognized code `03` is rejected with
`RecordInvalidType`. -/
theorem record_type_closed_enumeration_witness :
    RecordType.parse "03".toList =
      .error (IHexError.RecordInvalidType.new ("Invalid record type: " ++ String.mk "03".toList)) :=
  record_type_closed_enumeration.2.2.2.2.2.2.2.2.2.2.2 "03".toList
    (by decide) (by decide) (by decide) (by decide) (by decide)

/-- C6: once a line fully decodes into a record, `parse` succeeds exactly
when the recomputed checksum equals the declared one; on mismatch it fails
with a `RecordBadChecksum` error whose message reports both values; and
every successfully parsed record satisfies
`calculate_checksum = checksum`. -/
theorem parse_checksum_validation (line : List Char) (r : Record) :
    (Record.decode line = some (.ok (some r)) →
      (Record.parse line = some (.ok (some r)) ↔ r.calculate_checksum = r.checksum) ∧
      (r.calculate_checksum ≠ r.checksum →
        Record.parse line = some (.error (IHexError.RecordBadChecksum.new
          ("Bad checksum: 0x" ++ hexX r.checksum ++ ", calculated: 0x"
            ++ hexX r.calculate_checksum ++ " ("
            ++ toString r.calculate_checksum ++ ")"))))) ∧
    (Record.parse line = some (.ok (some r)) → r.calculate_checksum = r.checksum) := by
  constructor
  · intro hd
    constructor
    · constructor
      · intro hp
        exact (decode_of_parse_ok hp).2
      · intro hcs
        exact parse_of_decode_ok hd hcs
    · intro hcs
      exact parse_of_decode_mismatch hd hcs
  · intro hp
    exact (decode_of_parse_ok hp).2

/-! ## Loop lemmas for the document assembler -/

theorem parse_no_marker {line : List Char} (h : RECORD_START ∉ line) :
    Record.parse line = some (.ok none) := by
  have hf : line.findIdx? (fun b => b == RECORD_START) = none := by
    rw [List.findIdx?_eq_none_iff]
    intro x hx
    simp only [beq_eq_false_iff_ne]
    exact fun he => h (he ▸ hx)
  have hd : Record.decode line = some (.ok none) := by
    unfold Record.decode
    rw [hf]
  exact parse_of_decode_other hd (by intro r; simp)

theorem loop_skip_none {l : List Char} (ls : List (List Char)) (k : Nat)
    (h : Record.parse l = some (.ok none)) :
    parse_records_loop (l :: ls) k = parse_records_loop ls (k + 1) := by
  rw [parse_records_loop, h]

theorem loop_all_none {ls : List (List Char)}
    (h : ∀ l ∈ ls, Record.parse l = some (.ok none)) :
    ∀ k, parse_records_loop ls k = some (.ok []) := by
  induction ls with
  | nil => intro k; rfl
  | cons l rest ih =>
    intro k
    rw [loop_skip_none rest k (h l (List.mem_cons_self l rest))]
    exact ih (fun l' hl' => h l' (List.mem_cons_of_mem l hl')) (k + 1)

theorem loop_first_error :
    ∀ (ls : List (List Char)) (i k : Nat) (line : List Char) (err : IntelHexError),
    ls[i]? = some line →
    Record.parse line = some (.error err) →
    (∀ j, j < i → ∀ l', ls[j]? = some l' → ∃ v, Record.parse l' = some (.ok v)) →
    parse_records_loop ls k = some (.error ((IHexError.FileBadRecord.new
      ("Error while parsing record on line " ++ toString (k + i + 1))).set_source
        (.inr err))) := by
  intro ls
  induction ls with
  | nil => intro i k line err h1 _ _; simp at h1
  | cons l rest ih =>
    intro i k line err h1 h2 h3
    cases i with
    | zero =>
      simp only [List.getElem?_cons_zero, Option.some.injEq] at h1
      subst h1
      unfold parse_records_loop
      rw [h2]
    | succ i' =>
      simp only [List.getElem?_cons_succ] at h1
      obtain ⟨v, hv⟩ := h3 0 (Nat.succ_pos i') l (by simp)
      have h3' : ∀ j, j < i' → ∀ l', rest[j]? = some l' →
          ∃ v, Record.parse l' = some (.ok v) := by
        intro j hj l' hl'
        exact h3 (j + 1) (Nat.succ_lt_succ hj) l' (by simpa using hl')
      have hrest := ih i' (k + 1) line err h1 h2 h3'
      have hmsg : k + 1 + i' + 1 = k + (i' + 1) + 1 := by omega
      rw [hmsg] at hrest
      cases v with
      | none =>
        rw [loop_skip_none rest k hv]
        exact hrest
      | some r =>
        unfold parse_records_loop
        rw [hv, hrest]
        rfl

theorem loop_all_parsed :
    ∀ (rs : List Record) (k : Nat),
    (∀ r ∈ rs, Record.parse r.to_hex_str = some (.ok (some r))) →
    parse_records_loop (rs.map Record.to_hex_str) k = some (.ok rs) := by
  intro rs
  induction rs with
  | nil => intro k _; rfl
  | cons r rest ih =>
    intro k h
    show parse_records_loop (r.to_hex_str :: rest.map Record.to_hex_str) k = _
    unfold parse_records_loop
    rw [h r (List.mem_cons_self r rest)]
    rw [ih (k + 1) (fun r' hr' => h r' (List.mem_cons_of_mem r hr'))]
    rfl

/-- C6 witness: the spec's example record parses successfully and its
checksum validates. -/
theorem parse_checksum_validation_witness :
    Record.parse ":08A455002E2F5F6E6963655F45".toList =
      some (.ok (some ⟨8, 0xA455, .Data, [0x2E, 0x2F, 0x5F, 0x6E, 0x69, 0x63, 0x65, 0x5F], 0x45⟩)) ∧
    Record.calculate_checksum
        ⟨8, 0xA455, .Data, [0x2E, 0x2F, 0x5F, 0x6E, 0x69, 0x63, 0x65, 0x5F], 0x45⟩ =
      (⟨8, 0xA455, .Data, [0x2E, 0x2F, 0x5F, 0x6E, 0x69, 0x63, 0x65, 0x5F], 0x45⟩ : Record).checksum := by
  refine ⟨?_, ?_⟩
  · exact ((parse_checksum_validation ":08A455002E2F5F6E6963655F45".toList
      ⟨8, 0xA455, .Data, [0x2E, 0x2F, 0x5F, 0x6E, 0x69, 0x63, 0x65, 0x5F], 0x45⟩).1 rfl).1.mpr rfl
  · exact (parse_checksum_validation ":08A455002E2F5F6E6963655F45".toList
      ⟨8, 0xA455, .Data, [0x2E, 0x2F, 0x5F, 0x6E, 0x69, 0x63, 0x65, 0x5F], 0x45⟩).2
      (((parse_checksum_validation ":08A455002E2F5F6E6963655F45".toList
        ⟨8, 0xA455, .Data, [0x2E, 0x2F, 0x5F, 0x6E, 0x69, 0x63, 0x65, 0x5F], 0x45⟩).1 rfl).1.mpr rfl)

/-- C8: a line with no start marker parses to "no record" rather than an
error, the record loop skips such a line while counting it for line
numbering, and a document whose lines all lack the marker loads successfully
with zero records. -/
theorem skip_lines_without_marker :
    (∀ line : List Char, RECORD_START ∉ line → Record.parse line = some (.ok none)) ∧
    (∀ (l : List Char) (ls : List (List Char)) (k : Nat),
      Record.parse l = some (.ok none) →
      parse_records_loop (l :: ls) k = parse_records_loop ls (k + 1)) ∧
    (∀ text : List Char, (∀ l ∈ rustLines text, RECORD_START ∉ l) →
      IntelHexFile.load text = some (.ok ⟨none, strBytesLen text, []⟩)) := by
  refine ⟨fun line h => parse_no_marker h, fun l ls k h => loop_skip_none ls k h, ?_⟩
  intro text h
  have hall : ∀ l ∈ rustLines text, Record.parse l = some (.ok none) :=
    fun l hl => parse_no_marker (h l hl)
  unfold IntelHexFile.load IntelHexFile.parse_records
  rw [loop_all_none hall 0]

/-- C8 witness: a marker-free two-line text loads with zero records, and a
blank line parses to "no record". -/
theorem skip_lines_without_marker_witness :
    Record.parse "".toList = some (.ok none) ∧
    IntelHexFile.load "hello\nworld".toList = some (.ok ⟨none, 11, []⟩) :=
  ⟨skip_lines_without_marker.1 "".toList (by decide),
   skip_lines_without_marker.2.2 "hello\nworld".toList (by decide)⟩

/-- C9: if the `i`-th line (0-based) of the input is the first line on which
`Record::parse` fails, `load` fails with a `FileErrorLoad` error whose
source is a `FileBadRecord` error naming the 1-based line number `i + 1` and
wrapping the record-level cause; no document is returned. -/
theorem load_fail_fast (text : List Char) (i : Nat) (line : List Char) (err : IntelHexError)
    (h1 : (rustLines text)[i]? = some line)
    (h2 : Record.parse line = some (.error err))
    (h3 : ∀ j, j < i → ∀ l', (rustLines text)[j]? = some l' →
      ∃ v, Record.parse l' = some (.ok v)) :
    IntelHexFile.load text = some (.error ((IHexError.FileErrorLoad.new
      "Error loading data").set_source (.inr ((IHexError.FileBadRecord.new
        ("Error while parsing record on line " ++ toString (i + 1))).set_source
          (.inr err))))) := by
  have hloop := loop_first_error (rustLines text) i 0 line err h1 h2 h3
  have hmsg : 0 + i + 1 = i + 1 := by omega
  rw [hmsg] at hloop
  unfold IntelHexFile.load IntelHexFile.parse_records
  rw [hloop]

/-- C9 witness: a good end-of-file record followed by a record with a
corrupted checksum makes `load` fail with the error chain naming line 2 and
wrapping the `RecordBadChecksum` cause. -/
theorem load_fail_fast_witness :
    IntelHexFile.load ":00000001FF\n:00000000FF".toList =
      some (.error ((IHexError.FileErrorLoad.new
        "Error loading data").set_source (.inr ((IHexError.FileBadRecord.new
          ("Error while parsing record on line " ++ toString (1 + 1))).set_source
            (.inr (IHexError.RecordBadChecksum.new
              "Bad checksum: 0xFF, calculated: 0x0 (0)")))))) := by
  apply load_fail_fast ":00000001FF\n:00000000FF".toList 1 ":00000000FF".toList
    (IHexError.RecordBadChecksum.new "Bad checksum: 0xFF, calculated: 0x0 (0)")
    rfl rfl
  intro j hj l' hl'
  have hj0 : j = 0 := by omega
  subst hj0
  rw [show (rustLines ":00000001FF\n:00000000FF".toList)[0]? =
    some ":00000001FF".toList from rfl] at hl'
  cases hl'
  exact ⟨some ⟨0, 0, .EndOfFile, [], 255⟩, rfl⟩

/-! ## Slice and marker-location lemmas -/

theorem strSlice_append_left {s t : List Char} {a b : Nat} (hab : a ≤ b)
    (h : b ≤ s.length) : strSlice (s ++ t) a b = strSlice s a b := by
  unfold strSlice
  rw [List.drop_append_of_le_length (by omega)]
  rw [List.take_append_of_le_length (by simp; omega)]

theorem strSlice?_append_left {s t : List Char} {a b : Nat}
    (h : b ≤ s.length) : strSlice? (s ++ t) a b = strSlice? s a b := by
  unfold strSlice?
  by_cases hab : a ≤ b
  · rw [if_pos (by simp; omega), if_pos (by omega)]
    have := strSlice_append_left (s := s) (t := t) hab h
    unfold strSlice at this
    rw [this]
  · rw [if_neg (by omega), if_neg (by omega)]

theorem findIdx?_append_some {l t : List Char} {p : Char → Bool} {i : Nat}
    (h : l.findIdx? p = some i) : (l ++ t).findIdx? p = some i := by
  induction l generalizing i with
  | nil => simp at h
  | cons a l ih =>
    rw [List.cons_append]
    rw [List.findIdx?_cons] at h ⊢
    cases hp : p a with
    | true => simp only [hp, if_true] at h ⊢; exact h
    | false =>
      simp only [hp, Bool.false_eq_true, if_false] at h ⊢
      rw [List.findIdx?_succ] at h ⊢
      cases hfi : l.findIdx? p with
      | none => rw [hfi] at h; exact absurd h (by simp)
      | some i' =>
        rw [hfi] at h
        rw [ih hfi]
        exact h

theorem findIdx?_lt_length {l : List Char} {p : Char → Bool} {i : Nat}
    (h : l.findIdx? p = some i) : i < l.length :=
  (List.findIdx?_eq_some_iff_findIdx_eq.mp h).1

/-! ## Decode invariance under surrounding characters -/

theorem decode_cons_not_marker {c : Char} (line : List Char) (h : c ≠ RECORD_START) :
    Record.decode (c :: line) = Record.decode line := by
  unfold Record.decode
  have hb : (c == RECORD_START) = false := by simp [h]
  rw [List.findIdx?_cons, hb]
  simp only [Bool.false_eq_true, if_false]
  rw [List.findIdx?_succ]
  cases line.findIdx? (fun b => b == RECORD_START) with
  | none => rfl
  | some idx => rfl

theorem decode_prefix_invariant : ∀ pre line : List Char, RECORD_START ∉ pre →
    Record.decode (pre ++ line) = Record.decode line := by
  intro pre
  induction pre with
  | nil => intro line _; rfl
  | cons c pre' ih =>
    intro line h
    rw [List.cons_append,
      decode_cons_not_marker _ (fun he => h (he ▸ List.mem_cons_self c pre'))]
    exact ih line (fun hm => h (List.mem_cons_of_mem c hm))

theorem parse_eq_of_decode_eq {l1 l2 : List Char}
    (h : Record.decode l1 = Record.decode l2) : Record.parse l1 = Record.parse l2 := by
  unfold Record.parse
  rw [h]

theorem decodeBody_append_of_ok {rs : List Char} {r : Record} (t : List Char)
    (h : Record.decodeBody rs = some (.ok (some r))) :
    Record.decodeBody (rs ++ t) = some (.ok (some r)) := by
  unfold Record.decodeBody at h
  cases hs2 : strSlice? rs 0 2 with
  | none => rw [hs2] at h; exact absurd h (by simp)
  | some lenSlice =>
    simp only [hs2] at h
    have hb2 : 2 ≤ rs.length := by
      by_contra hc
      unfold strSlice? at hs2
      rw [if_neg (by omega)] at hs2
      cases hs2
    cases hd : hexDecode lenSlice with
    | error e => rw [hd] at h; exact absurd h (by simp)
    | ok lenBytes =>
      simp only [hd] at h
      by_cases hle : 2 + (8 + lenBytes.sum % 256 * 2) ≤ rs.length
      · rw [if_neg (not_not_intro hle)] at h
        cases ha : hexDecode (strSlice rs 2 6) with
        | error e => rw [ha] at h; exact absurd h (by simp)
        | ok addrBytes =>
          simp only [ha] at h
          cases hg0 : addrBytes[0]? with
          | none => simp only [hg0] at h; exact absurd h (by simp)
          | some b0 =>
            cases hg1 : addrBytes[1]? with
            | none => simp only [hg0, hg1] at h; exact absurd h (by simp)
            | some b1 =>
              simp only [hg0, hg1] at h
              cases hty : RecordType.parse (strSlice rs 6 8) with
              | error e => rw [hty] at h; exact absurd h (by simp)
              | ok rtype =>
                simp only [hty] at h
                cases hdata : hexDecode (strSlice rs 8 (8 + lenBytes.sum % 256 * 2)) with
                | error e => rw [hdata] at h; exact absurd h (by simp)
                | ok dataBytes =>
                  simp only [hdata] at h
                  cases hck : hexDecode (strSlice rs (8 + lenBytes.sum % 256 * 2)
                      (2 + (8 + lenBytes.sum % 256 * 2))) with
                  | error e => rw [hck] at h; exact absurd h (by simp)
                  | ok csBytes =>
                    simp only [hck] at h
                    unfold Record.decodeBody
                    rw [strSlice?_append_left hb2, hs2]
                    simp only [hd]
                    rw [if_neg (not_not_intro (by simp only [List.length_append]; omega))]
                    rw [strSlice_append_left (by omega) (by omega), ha]
                    simp only [hg0, hg1]
                    rw [strSlice_append_left (by omega) (by omega), hty]
                    rw [strSlice_append_left (by omega) (by omega), hdata]
                    rw [strSlice_append_left (by omega) (by omega), hck]
                    exact h
      · rw [if_pos hle] at h
        exact absurd h (by simp)

theorem decode_append_of_ok {line : List Char} {r : Record} (t : List Char)
    (h : Record.decode line = some (.ok (some r))) :
    Record.decode (line ++ t) = some (.ok (some r)) := by
  unfold Record.decode at h ⊢
  cases hf : line.findIdx? (fun b => b == RECORD_START) with
  | none => rw [hf] at h; exact absurd h (by simp)
  | some start =>
    simp only [hf] at h
    rw [findIdx?_append_some hf]
    have hlt : start < line.length := findIdx?_lt_length hf
    show Record.decodeBody ((line ++ t).drop (start + 1)) = _
    rw [List.drop_append_of_le_length (by omega)]
    exact decodeBody_append_of_ok t h

/-- C10: all characters before the first start marker are ignored (a line
with a marker-free prefix parses exactly like the line without it), and any
characters after the declared end of the record are ignored (appending a
suffix to a successfully parsed line leaves the parsed record unchanged). -/
theorem parse_ignores_surroundings :
    (∀ pre line : List Char, RECORD_START ∉ pre →
      Record.parse (pre ++ line) = Record.parse line) ∧
    (∀ (line t : List Char) (r : Record),
      Record.parse line = some (.ok (some r)) →
      Record.parse (line ++ t) = some (.ok (some r))) := by
  constructor
  · intro pre line h
    exact parse_eq_of_decode_eq (decode_prefix_invariant pre line h)
  · intro line t r h
    obtain ⟨hd, hcs⟩ := decode_of_parse_ok h
    exact parse_of_decode_ok (decode_append_of_ok t hd) hcs

/-- C10 witness: a marker-free prefix and a trailing suffix both leave the
parse of an end-of-file record untouched. -/
theorem parse_ignores_surroundings_witness :
    Record.parse "xy:00000001FF".toList = Record.parse ":00000001FF".toList ∧
    Record.parse ":00000001FFgarbage".toList =
      some (.ok (some ⟨0, 0, .EndOfFile, [], 255⟩)) :=
  ⟨parse_ignores_surroundings.1 "xy".toList ":00000001FF".toList (by decide),
   parse_ignores_surroundings.2 ":00000001FF".toList "garbage".toList
     ⟨0, 0, .EndOfFile, [], 255⟩ rfl⟩

/-! ## Hex encode/decode inversion -/

theorem hexVal_hexDigitUpper {n : Nat} (h : n < 16) :
    hexVal? (hexDigitUpper n) = some n := by
  interval_cases n <;> decide

theorem hexDigitUpper_ne_special {n : Nat} (h : n < 16) :
    hexDigitUpper n ≠ RECORD_START ∧ hexDigitUpper n ≠ '\n' ∧ hexDigitUpper n ≠ '\r' := by
  interval_cases n <;> decide

theorem hexEncodeUpper_append (xs ys : List Nat) :
    hexEncodeUpper (xs ++ ys) = hexEncodeUpper xs ++ hexEncodeUpper ys := by
  simp [hexEncodeUpper]

theorem hexEncodeUpper_singleton (b : Nat) : hexEncodeUpper [b] = byteHexUpper b := by
  simp [hexEncodeUpper]

theorem hexEncodeUpper_pair (a b : Nat) :
    hexEncodeUpper [a, b] = byteHexUpper a ++ byteHexUpper b := by
  simp [hexEncodeUpper]

theorem hexEncodeUpper_length (bs : List Nat) :
    (hexEncodeUpper bs).length = 2 * bs.length := by
  induction bs with
  | nil => rfl
  | cons b rest ih =>
    show (byteHexUpper b ++ hexEncodeUpper rest).length = _
    simp only [List.length_append, ih, List.length_cons]
    simp [byteHexUpper]
    omega

theorem decodeLoop_encode (bs : List Nat) (h : ∀ b ∈ bs, b < 256) :
    ∀ i, decodeLoop (hexEncodeUpper bs) i = .ok bs := by
  induction bs with
  | nil => intro i; rfl
  | cons b rest ih =>
    intro i
    have hb : b < 256 := h b (List.mem_cons_self b rest)
    have e1 : hexVal? (hexDigitUpper (b / 16 % 16)) = some (b / 16 % 16) :=
      hexVal_hexDigitUpper (Nat.mod_lt _ (by norm_num))
    have e2 : hexVal? (hexDigitUpper (b % 16)) = some (b % 16) :=
      hexVal_hexDigitUpper (Nat.mod_lt _ (by norm_num))
    show decodeLoop (hexDigitUpper (b / 16 % 16) :: hexDigitUpper (b % 16)
      :: hexEncodeUpper rest) i = _
    unfold decodeLoop
    simp only [e1, e2]
    rw [ih (fun b' hb' => h b' (List.mem_cons_of_mem b hb')) (i + 2)]
    have hv : b / 16 % 16 * 16 + b % 16 = b := by omega
    rw [hv]
    rfl

theorem hexDecode_encode (bs : List Nat) (h : ∀ b ∈ bs, b < 256) :
    hexDecode (hexEncodeUpper bs) = .ok bs := by
  unfold hexDecode
  rw [hexEncodeUpper_length, if_neg (by omega)]
  exact decodeLoop_encode bs h 0

theorem mem_hexEncodeUpper {c : Char} {bs : List Nat} (h : c ∈ hexEncodeUpper bs) :
    ∃ n, n < 16 ∧ c = hexDigitUpper n := by
  unfold hexEncodeUpper at h
  rw [List.mem_flatten] at h
  obtain ⟨l, hl, hc⟩ := h
  rw [List.mem_map] at hl
  obtain ⟨b, _, rfl⟩ := hl
  unfold byteHexUpper at hc
  simp only [List.mem_cons, List.not_mem_nil, or_false] at hc
  rcases hc with rfl | rfl
  · exact ⟨b / 16 % 16, Nat.mod_lt _ (by norm_num), rfl⟩
  · exact ⟨b % 16, Nat.mod_lt _ (by norm_num), rfl⟩

/-! ## Round trip of one record: decoding its own hex line -/

theorem take_two_block (x : Nat) (rest : List Char) :
    (byteHexUpper x ++ rest).take 2 = byteHexUpper x := by
  rw [List.take_append_of_le_length (by simp [byteHexUpper])]
  simp [byteHexUpper]

theorem drop_two_block (x : Nat) (rest : List Char) :
    (byteHexUpper x ++ rest).drop 2 = rest := by
  rw [List.drop_append_of_le_length (by simp [byteHexUpper])]
  simp [byteHexUpper]

theorem decodeBody_to_hex {r : Record} (hwf : r.WF) :
    Record.decodeBody (hexEncodeUpper r.to_bytes) = some (.ok (some r)) := by
  obtain ⟨hlen, haddr, hdata, hck, hdl⟩ := hwf
  have hmap : r.data.map (· % 256) = r.data := by
    conv_rhs => rw [← List.map_id r.data]
    exact List.map_congr_left (fun b hb => Nat.mod_eq_of_lt (hdata b hb))
  have hbytes : r.to_bytes = [r.len] ++ [r.addr / 256] ++ [r.addr % 256] ++ [r.rtype.to_u8]
      ++ r.data ++ [r.checksum] := by
    rw [to_bytes_eq, hmap, Nat.mod_eq_of_lt hlen, Nat.mod_eq_of_lt haddr, Nat.mod_eq_of_lt hck]
    simp
  set s := hexEncodeUpper r.to_bytes with hs
  have hsplit : s = byteHexUpper r.len ++ (byteHexUpper (r.addr / 256)
      ++ (byteHexUpper (r.addr % 256) ++ (byteHexUpper r.rtype.to_u8
        ++ (hexEncodeUpper r.data ++ byteHexUpper r.checksum)))) := by
    rw [hs, hbytes, hexEncodeUpper_append, hexEncodeUpper_append, hexEncodeUpper_append,
      hexEncodeUpper_append, hexEncodeUpper_append]
    simp [hexEncodeUpper_singleton, List.append_assoc]
  have hlen10 : s.length = 2 * r.len + 10 := by
    rw [hs, hexEncodeUpper_length, to_bytes_length, hdl]
    ring
  have hd2 : s.drop 2 = byteHexUpper (r.addr / 256) ++ (byteHexUpper (r.addr % 256)
      ++ (byteHexUpper r.rtype.to_u8 ++ (hexEncodeUpper r.data ++ byteHexUpper r.checksum))) := by
    rw [hsplit]
    exact drop_two_block _ _
  have hd4 : s.drop 4 = byteHexUpper (r.addr % 256) ++ (byteHexUpper r.rtype.to_u8
      ++ (hexEncodeUpper r.data ++ byteHexUpper r.checksum)) := by
    rw [show (4 : ℕ) = 2 + 2 from rfl, ← List.drop_drop, hd2]
    exact drop_two_block _ _
  have hd6 : s.drop 6 = byteHexUpper r.rtype.to_u8
      ++ (hexEncodeUpper r.data ++ byteHexUpper r.checksum) := by
    rw [show (6 : ℕ) = 4 + 2 from rfl, ← List.drop_drop, hd4]
    exact drop_two_block _ _
  have hd8 : s.drop 8 = hexEncodeUpper r.data ++ byteHexUpper r.checksum := by
    rw [show (8 : ℕ) = 6 + 2 from rfl, ← List.drop_drop, hd6]
    exact drop_two_block _ _
  have hdlen : (hexEncodeUpper r.data).length = r.len * 2 := by
    rw [hexEncodeUpper_length, hdl]
    ring
  have hdDE : s.drop (8 + r.len * 2) = byteHexUpper r.checksum := by
    rw [← List.drop_drop, hd8, List.drop_append_of_le_length (by rw [hdlen]),
      List.drop_of_length_le (by rw [hdlen]), List.nil_append]
  have sl02 : strSlice? s 0 2 = some (byteHexUpper r.len) := by
    unfold strSlice?
    rw [if_pos ⟨by omega, by omega⟩]
    show some ((s.drop 0).take 2) = _
    rw [List.drop_zero, hsplit, take_two_block]
  have sl26 : strSlice s 2 6 = byteHexUpper (r.addr / 256) ++ byteHexUpper (r.addr % 256) := by
    unfold strSlice
    show (s.drop 2).take 4 = _
    rw [hd2, show (4 : ℕ) = (byteHexUpper (r.addr / 256)).length + 2 from rfl,
      List.take_append, take_two_block]
  have sl68 : strSlice s 6 8 = byteHexUpper r.rtype.to_u8 := by
    unfold strSlice
    show (s.drop 6).take 2 = _
    rw [hd6, take_two_block]
  have sl8D : strSlice s 8 (8 + r.len * 2) = hexEncodeUpper r.data := by
    unfold strSlice
    show (s.drop 8).take (8 + r.len * 2 - 8) = _
    rw [show 8 + r.len * 2 - 8 = r.len * 2 from by omega, hd8,
      List.take_append_of_le_length (by rw [hdlen]), List.take_of_length_le (by rw [hdlen])]
  have slDC : strSlice s (8 + r.len * 2) (2 + (8 + r.len * 2)) = byteHexUpper r.checksum := by
    unfold strSlice
    rw [show 2 + (8 + r.len * 2) - (8 + r.len * 2) = 2 from by omega, hdDE]
    exact List.take_of_length_le (by simp [byteHexUpper])
  have hdec1 : hexDecode (byteHexUpper r.len) = .ok [r.len] := by
    rw [← hexEncodeUpper_singleton]
    exact hexDecode_encode [r.len] (by intro b hb; simp at hb; omega)
  have hdec2 : hexDecode (byteHexUpper (r.addr / 256) ++ byteHexUpper (r.addr % 256)) =
      .ok [r.addr / 256, r.addr % 256] := by
    rw [← hexEncodeUpper_pair]
    refine hexDecode_encode _ ?_
    intro b hb
    simp at hb
    rcases hb with rfl | rfl <;> omega
  have hdecD : hexDecode (hexEncodeUpper r.data) = .ok r.data := hexDecode_encode _ hdata
  have hdecC : hexDecode (byteHexUpper r.checksum) = .ok [r.checksum] := by
    rw [← hexEncodeUpper_singleton]
    exact hexDecode_encode _ (by intro b hb; simp at hb; omega)
  have htyp : RecordType.parse (byteHexUpper r.rtype.to_u8) = .ok r.rtype := by
    cases r.rtype <;> rfl
  unfold Record.decodeBody
  simp only [sl02, hdec1, List.sum_cons, List.sum_nil, Nat.add_zero, Nat.mod_eq_of_lt hlen]
  rw [if_neg (not_not_intro (by omega))]
  simp only [sl26, hdec2, List.getElem?_cons_zero, List.getElem?_cons_succ, sl68, htyp,
    sl8D, hdecD, slDC, hdecC, List.sum_cons, List.sum_nil, Nat.add_zero,
    Nat.mod_eq_of_lt hck]
  rw [show r.addr / 256 * 256 + r.addr % 256 = r.addr from by omega]

theorem decode_to_hex_str {r : Record} (hwf : r.WF) :
    Record.decode r.to_hex_str = some (.ok (some r)) := by
  show Record.decode (RECORD_START :: hexEncodeUpper r.to_bytes) = _
  unfold Record.decode
  rw [show (RECORD_START :: hexEncodeUpper r.to_bytes).findIdx?
      (fun b => b == RECORD_START) = some 0 from rfl]
  exact decodeBody_to_hex hwf

theorem parse_to_hex_str {r : Record} (hwf : r.WF)
    (hcs : r.calculate_checksum = r.checksum) :
    Record.parse r.to_hex_str = some (.ok (some r)) :=
  parse_of_decode_ok (decode_to_hex_str hwf) hcs

/-! ## Splitting a joined document back into its lines -/

theorem to_hex_str_chars (r : Record) :
    r.to_hex_str ≠ [] ∧ '\n' ∉ r.to_hex_str ∧ '\r' ∉ r.to_hex_str := by
  refine ⟨by simp [Record.to_hex_str], ?_, ?_⟩
  · intro hmem
    rcases List.mem_cons.mp hmem with heq | henc
    · exact absurd heq (by decide)
    · obtain ⟨n, hn, he⟩ := mem_hexEncodeUpper henc
      exact (hexDigitUpper_ne_special hn).2.1 he.symm
  · intro hmem
    rcases List.mem_cons.mp hmem with heq | henc
    · exact absurd heq (by decide)
    · obtain ⟨n, hn, he⟩ := mem_hexEncodeUpper henc
      exact (hexDigitUpper_ne_special hn).2.2 he.symm

theorem splitNL_no_newline {l : List Char} (h : '\n' ∉ l) : splitNL l = [l] := by
  induction l with
  | nil => rfl
  | cons c rest ih =>
    rw [splitNL, if_neg (fun he : c = '\n' => h (he ▸ List.mem_cons_self c rest)),
      ih (fun hm => h (List.mem_cons_of_mem c hm))]

theorem splitNL_append_newline {l : List Char} (rest : List Char) (h : '\n' ∉ l) :
    splitNL (l ++ '\n' :: rest) = l :: splitNL rest := by
  induction l with
  | nil =>
    show splitNL ('\n' :: rest) = [] :: splitNL rest
    rw [splitNL, if_pos rfl]
  | cons c l' ih =>
    have hc : c ≠ '\n' := fun he : c = '\n' => h (he ▸ List.mem_cons_self c l')
    show splitNL (c :: (l' ++ '\n' :: rest)) = (c :: l') :: splitNL rest
    rw [splitNL, if_neg hc, ih (fun hm => h (List.mem_cons_of_mem c hm))]

theorem chompCR_id {l : List Char} (h : '\r' ∉ l) : chompCR l = l := by
  unfold chompCR
  rw [if_neg (fun habs => h (List.getElem?_mem (List.getLast?_eq_getElem? l ▸ habs)))]

theorem linesAssemble_id : ∀ ls : List (List Char),
    (∀ l ∈ ls, l ≠ [] ∧ '\r' ∉ l) → linesAssemble ls = ls := by
  intro ls
  induction ls with
  | nil => intro _; rfl
  | cons p rest ih =>
    intro h
    cases rest with
    | nil =>
      show linesAssemble [p] = [p]
      unfold linesAssemble
      rw [if_neg (h p (List.mem_cons_self p [])).1]
    | cons q rest' =>
      show chompCR p :: linesAssemble (q :: rest') = p :: q :: rest'
      rw [chompCR_id (h p (List.mem_cons_self p _)).2,
        ih (fun l hl => h l (List.mem_cons_of_mem p hl))]

theorem intercalate_nl_cons_cons (l m : List Char) (t : List (List Char)) :
    List.intercalate ['\n'] (l :: m :: t) = l ++ '\n' :: List.intercalate ['\n'] (m :: t) := by
  simp [List.intercalate, List.intersperse]

theorem intercalate_nl_singleton (l : List Char) :
    List.intercalate ['\n'] [l] = l := by
  simp [List.intercalate, List.intersperse]

theorem splitNL_intercalate : ∀ ls : List (List Char), ls ≠ [] →
    (∀ l ∈ ls, '\n' ∉ l) →
    splitNL (List.intercalate ['\n'] ls) = ls := by
  intro ls
  induction ls with
  | nil => intro hne _; exact absurd rfl hne
  | cons l rest ih =>
    intro _ h
    cases rest with
    | nil =>
      rw [intercalate_nl_singleton]
      exact splitNL_no_newline (h l (List.mem_cons_self l []))
    | cons m rest' =>
      rw [intercalate_nl_cons_cons,
        splitNL_append_newline _ (h l (List.mem_cons_self l _)),
        ih (by simp) (fun l' hl' => h l' (List.mem_cons_of_mem l hl'))]

theorem rustLines_intercalate (ls : List (List Char)) (hne : ls ≠ [])
    (h : ∀ l ∈ ls, l ≠ [] ∧ '\n' ∉ l ∧ '\r' ∉ l) :
    rustLines (List.intercalate ['\n'] ls) = ls := by
  unfold rustLines
  have hs : List.intercalate ['\n'] ls ≠ [] := by
    cases ls with
    | nil => exact absurd rfl hne
    | cons l rest =>
      cases rest with
      | nil =>
        rw [intercalate_nl_singleton]
        exact (h l (List.mem_cons_self l [])).1
      | cons m rest' =>
        rw [intercalate_nl_cons_cons]
        intro habs
        rcases List.append_eq_nil.mp habs with ⟨-, habs2⟩
        cases habs2
  rw [if_neg hs, splitNL_intercalate ls hne (fun l hl => (h l hl).2.1),
    linesAssemble_id ls (fun l hl => ⟨(h l hl).1, (h l hl).2.2⟩)]

theorem hexLinesLoop_intercalate : ∀ (rs : List Record), rs ≠ [] → ∀ i : Nat,
    hexLinesLoop rs i (i + rs.length - 1) =
      List.intercalate ['\n'] (rs.map Record.to_hex_str) := by
  intro rs
  induction rs with
  | nil => intro hne _; exact absurd rfl hne
  | cons r rest ih =>
    intro _ i
    cases rest with
    | nil =>
      show hexLinesLoop [r] i (i + 1 - 1) = _
      unfold hexLinesLoop
      rw [show i + 1 - 1 = i from by omega, if_neg (by omega)]
      show r.to_hex_str ++ [] ++ [] = _
      rw [List.map_cons, List.map_nil, intercalate_nl_singleton, List.append_nil,
        List.append_nil]
    | cons r2 rest' =>
      show hexLinesLoop (r :: r2 :: rest') i (i + (rest'.length + 2) - 1) = _
      unfold hexLinesLoop
      rw [if_pos (by omega)]
      rw [show i + (rest'.length + 2) - 1 = (i + 1) + (r2 :: rest').length - 1 from by
        simp; omega]
      rw [ih (by simp) (i + 1)]
      simp only [List.map_cons]
      rw [intercalate_nl_cons_cons]
      simp

/-! ## Claim theorems: the round trip -/

/-- C1 counterexample: the document whose single record has `len = 1` but an
empty payload satisfies the claim's validity condition — its recomputed
checksum equals the declared one — yet loading its serialized text fails
with an `InvalidLength` chain, so `load(D.to_hex_text())` yields no document
at all and the round-trip equation fails. -/
theorem round_trip_counterexample :
    ((⟨none, 11, [⟨1, 0, .Data, [], 255⟩]⟩ : IntelHexFile).records.all
      (fun r => r.calculate_checksum == r.checksum)) = true ∧
    IntelHexFile.to_hex_str ⟨none, 11, [⟨1, 0, .Data, [], 255⟩]⟩ =
      some ":01000000FF".toList ∧
    IntelHexFile.load ":01000000FF".toList = some (.error
      ((IHexError.FileErrorLoad.new "Error loading data").set_source (.inr
        ((IHexError.FileBadRecord.new
          "Error while parsing record on line 1").set_source (.inr
            (IHexError.RecordInvalidLength.new "Record length: 10, expected: 12")))))) :=
  ⟨rfl, rfl, rfl⟩

/-- C1 (amended): for every document with at least one record whose records
are all well formed (fields in range and payload length equal to the length
field) and satisfy the checksum invariant, serializing, loading the text and
re-serializing yields byte-identical text. -/
theorem round_trip_wf_documents (D : IntelHexFile) (hne : D.records ≠ [])
    (h : ∀ r ∈ D.records, r.WF ∧ r.calculate_checksum = r.checksum) :
    ∃ t : List Char, D.to_hex_str = some t ∧
      IntelHexFile.load t = some (.ok ⟨none, strBytesLen t, D.records⟩) ∧
      IntelHexFile.to_hex_str ⟨none, strBytesLen t, D.records⟩ = some t := by
  have hlen1 : 1 ≤ D.records.length := List.length_pos.mpr hne
  set t := hexLinesLoop D.records 0 (D.records.length - 1) with ht
  have hto : D.to_hex_str = some t := by
    unfold IntelHexFile.to_hex_str
    rw [show checkedSub D.records.length 1 = some (D.records.length - 1) from by
      unfold checkedSub; rw [if_pos hlen1]]
  have hterc : t = List.intercalate ['\n'] (D.records.map Record.to_hex_str) := by
    rw [ht]
    have hj := hexLinesLoop_intercalate D.records hne 0
    rw [Nat.zero_add] at hj
    exact hj
  have hlines : rustLines t = D.records.map Record.to_hex_str := by
    rw [hterc]
    apply rustLines_intercalate
    · simp [hne]
    · intro l hl
      rw [List.mem_map] at hl
      obtain ⟨r, _, rfl⟩ := hl
      exact to_hex_str_chars r
  have hparse : ∀ r ∈ D.records, Record.parse r.to_hex_str = some (.ok (some r)) :=
    fun r hr => parse_to_hex_str (h r hr).1 (h r hr).2
  have hload : IntelHexFile.load t = some (.ok ⟨none, strBytesLen t, D.records⟩) := by
    unfold IntelHexFile.load IntelHexFile.parse_records
    rw [hlines, loop_all_parsed D.records 0 hparse]
  refine ⟨t, hto, hload, ?_⟩
  unfold IntelHexFile.to_hex_str
  rw [show checkedSub (⟨none, strBytesLen t, D.records⟩ : IntelHexFile).records.length 1 =
    some (D.records.length - 1) from by unfold checkedSub; rw [if_pos hlen1]]

/-- C1 witness: the round trip holds for the one-record document holding a
valid end-of-file record. -/
theorem round_trip_wf_documents_witness :
    ∃ t : List Char,
      IntelHexFile.to_hex_str ⟨none, 11, [⟨0, 0, .EndOfFile, [], 255⟩]⟩ = some t ∧
      IntelHexFile.load t =
        some (.ok ⟨none, strBytesLen t, [⟨0, 0, .EndOfFile, [], 255⟩]⟩) ∧
      IntelHexFile.to_hex_str ⟨none, strBytesLen t, [⟨0, 0, .EndOfFile, [], 255⟩]⟩ =
        some t :=
  round_trip_wf_documents ⟨none, 11, [⟨0, 0, .EndOfFile, [], 255⟩]⟩
    (by simp) (by decide)

end IntelHex
